import Mathlib

/-!
Verification of the diff-indexing and review-comment engine of whytho.

The Go sources embedded here (as functions over `List Char`, the character
sequence of a Go string) are:
  - internal/services/review.go  : addLineNumbersToDiff, parseReview,
    shouldExcludePath, filterExcludedChanges
  - internal/services/gitlab.go  : findActualLineNumber,
    convertDiffLineToActualLine, GetWhyThoConfig, parseWhyThoConfigFromDiff
together with the parts of the Go standard library they rely on
(strings.Split, strings.SplitN, strings.TrimSpace, strconv.Atoi,
path/filepath.Match).

Machine integers (Go `int`) are modelled as `Int`; `strconv.Atoi` keeps its
64-bit range check.  External effects (the GitLab HTTP calls and the YAML
library) are modelled as explicit function arguments.
-/

namespace WhyTho

/-- A Go string, viewed as its sequence of characters. -/
abbrev Str := List Char

/-! ## Go standard-library string helpers -/

/-- `unicode.IsSpace`: the Unicode White_Space property, used by
`strings.TrimSpace`. -/
def goSpace (c : Char) : Bool :=
  c == ' ' || c == '\t' || c == '\n' || c.toNat == 0x0B || c.toNat == 0x0C ||
  c == '\r' || c.toNat == 0x85 || c.toNat == 0xA0 || c.toNat == 0x1680 ||
  (0x2000 ≤ c.toNat && c.toNat ≤ 0x200A) || c.toNat == 0x2028 ||
  c.toNat == 0x2029 || c.toNat == 0x202F || c.toNat == 0x205F ||
  c.toNat == 0x3000

/-- `strings.TrimSpace`. -/
def trimSpace (s : Str) : Str :=
  ((s.dropWhile goSpace).reverse.dropWhile goSpace).reverse

/-- `strings.HasPrefix s pre`. -/
def startsWith (s pre : Str) : Bool := pre.isPrefixOf s

/-- `strings.HasSuffix s suf`. -/
def endsWith (s suf : Str) : Bool := suf.isSuffixOf s

/-- `strings.TrimPrefix`: drop `pre` from the front of `s` when present. -/
def dropPre (pre s : Str) : Str :=
  if pre.isPrefixOf s then s.drop pre.length else s

/-- `strings.TrimSuffix`: drop `suf` from the end of `s` when present. -/
def trimSuf (suf s : Str) : Str :=
  if suf.isSuffixOf s then s.take (s.length - suf.length) else s

/-- Split off the part of `s` before the first occurrence of `sep`
(`none` when `sep` does not occur). -/
def breakFirst (sep : Char) : Str → Option (Str × Str)
  | [] => none
  | c :: rest =>
    if c = sep then some ([], rest)
    else (breakFirst sep rest).map (fun p => (c :: p.1, p.2))

/-- `strings.Split s (String.singleton sep)`: split on every occurrence of
the one-character separator; always returns at least one piece. -/
def splitChar (sep : Char) : Str → List Str
  | [] => [[]]
  | c :: rest =>
    if c = sep then [] :: splitChar sep rest
    else
      match splitChar sep rest with
      | r :: rs => (c :: r) :: rs
      | [] => [[c]]

/-- `strings.SplitN s sep n` for a one-character separator: at most `n`
pieces, the last piece keeping any further separators. -/
def splitNChar (sep : Char) : Nat → Str → List Str
  | 0, _ => []
  | 1, s => [s]
  | n + 2, s =>
    match breakFirst sep s with
    | none => [s]
    | some (a, b) => a :: splitNChar sep (n + 1) b

/-- Decimal value of a digit string. -/
def digitsToNat (s : Str) : Nat :=
  s.foldl (fun a c => 10 * a + (c.toNat - 48)) 0

/-- `strconv.Atoi` on a 64-bit platform: optional sign, decimal digits,
`none` on empty input, a non-digit, or 64-bit overflow (Go reports
`ErrRange`, which every caller here treats the same as a parse failure). -/
def atoiOpt : Str → Option Int
  | [] => none
  | c :: rest =>
    let neg := c = '-'
    let ds := if c = '-' ∨ c = '+' then rest else c :: rest
    if ds.isEmpty || !ds.all Char.isDigit then none
    else
      let v : Int := if neg then -(digitsToNat ds : Int) else (digitsToNat ds : Int)
      if -(2 ^ 63) ≤ v ∧ v ≤ 2 ^ 63 - 1 then some v else none

/-! ## Data model (internal/models/models.go) -/

/-- `models.MRChange` (string fields as `Str`). -/
structure MRChange where
  OldPath : Str := []
  NewPath : Str := []
  AMode : Str := []
  BMode : Str := []
  NewFile : Bool := false
  RenamedFile : Bool := false
  DeletedFile : Bool := false
  Diff : Str := []
deriving DecidableEq, Repr

/-- `models.PositionedComment`. -/
structure PositionedComment where
  FilePath : Str := []
  LineNumber : Int := 0
  LineType : Str := []
  Severity : Str := []
  Comment : Str := []
  OriginalLine : Str := []
  LineCode : Str := []
deriving DecidableEq, Repr

/-- `models.CodeReview`. -/
structure CodeReview where
  Summary : Str
  Comments : List Str
  PositionedComments : List PositionedComment
deriving DecidableEq, Repr

/-- `models.WhyThoConfig` (declared in the models package; usage in
gitlab.go and review.go shows its single field `ExcludePaths []string`,
the one recognized key of `.whytho/config.yaml`). -/
structure WhyThoConfig where
  ExcludePaths : List Str
deriving DecidableEq, Repr

/-! ## The diff numbering state machine

`addLineNumbersToDiff` (review.go) and `findActualLineNumber` (gitlab.go)
run the same scan: counters `oldLineNum`, `newLineNum`, `diffLineNum`, all
starting at 0, updated per line.  Their (textually identical) hunk-header
parsing is embedded once as `hunkStarts`/`hunkUpdate`. -/

/-- The three counters of the scan. -/
structure DiffState where
  old : Int
  new : Int
  pos : Int
deriving DecidableEq, Repr

/-- Kind of a line that consumes a diff position. -/
inductive LineKind where
  | added
  | removed
  | context
deriving DecidableEq, Repr

/-- The `line_type` string a kind is addressed by in the COMMENT protocol. -/
def kindStr : LineKind → Str
  | .added => "new".toList
  | .removed => "old".toList
  | .context => "context".toList

/-- One annotated line: its diff position and the file line number the
annotation attaches (`newLineNum` for added/context, `oldLineNum` for
removed). -/
structure AnnLine where
  pos : Int
  kind : LineKind
  lineNo : Int
deriving DecidableEq, Repr

/-- `if comma := strings.Index(part, ","); comma > 0 { part = part[:comma] }`. -/
def commaTrunc (s : Str) : Str :=
  match s.findIdx? (· = ',') with
  | some i => if 0 < i then s.take i else s
  | none => s

/-- The two start tokens of a `@@` hunk header, as parsed by both scans:
split on spaces, require at least 3 parts, strip a leading `-` / `+` from
parts 1 and 2, truncate at a comma, `strconv.Atoi`. -/
def hunkStarts (line : Str) : Option Int × Option Int :=
  match splitChar ' ' line with
  | _ :: p1 :: p2 :: _ =>
    (atoiOpt (commaTrunc (dropPre ['-'] p1)), atoiOpt (commaTrunc (dropPre ['+'] p2)))
  | _ => (none, none)

/-- Counter update on a hunk-header line: each counter is set to
`start - 1` when its token parses, and is otherwise left unchanged. -/
def hunkUpdate (s : DiffState) (line : Str) : DiffState :=
  let s1 := match (hunkStarts line).1 with
    | some v => { s with old := v - 1 }
    | none => s
  match (hunkStarts line).2 with
  | some v => { s1 with new := v - 1 }
  | none => s1

/-- Decimal rendering of a Go `int` (`fmt.Sprintf "%d"`). -/
def intStr (n : Int) : Str := (toString n).toList

/-- One iteration of the `addLineNumbersToDiff` loop: the new counter
state, the output line, and the annotation attached (if any). -/
def annotateStep (s : DiffState) (line : Str) : DiffState × Str × Option AnnLine :=
  if startsWith line "@@".toList then
    (hunkUpdate s line, line, none)
  else if startsWith line "+".toList then
    let s' := { s with new := s.new + 1, pos := s.pos + 1 }
    (s', line ++ " [DIFF_LINE:".toList ++ intStr s'.pos ++ ",NEW_LINE:".toList
          ++ intStr s'.new ++ "]".toList,
     some ⟨s'.pos, .added, s'.new⟩)
  else if startsWith line "-".toList then
    let s' := { s with old := s.old + 1, pos := s.pos + 1 }
    (s', line ++ " [DIFF_LINE:".toList ++ intStr s'.pos ++ ",OLD_LINE:".toList
          ++ intStr s'.old ++ "]".toList,
     some ⟨s'.pos, .removed, s'.old⟩)
  else if startsWith line " ".toList then
    let s' := { s with old := s.old + 1, new := s.new + 1, pos := s.pos + 1 }
    (s', line ++ " [DIFF_LINE:".toList ++ intStr s'.pos ++ ",CONTEXT:".toList
          ++ intStr s'.new ++ "]".toList,
     some ⟨s'.pos, .context, s'.new⟩)
  else
    (s, line, none)

/-- The full scan of `addLineNumbersToDiff`, keeping for every input line
its output text and its annotation. -/
def annotateAll : DiffState → List Str → List (Str × Option AnnLine)
  | _, [] => []
  | s, l :: ls =>
    let r := annotateStep s l
    (r.2.1, r.2.2) :: annotateAll r.1 ls

/-- `addLineNumbersToDiff` (review.go, part_001 lines 415-464): every
output line, annotated or passed through, is written with a trailing
newline. -/
def addLineNumbersToDiff (diff : Str) : Str :=
  ((annotateAll ⟨0, 0, 0⟩ (splitChar '\n' diff)).map (fun p => p.1 ++ ['\n'])).flatten

/-- The annotations produced from a given starting state. -/
def annLinesAux (s : DiffState) (ls : List Str) : List AnnLine :=
  (annotateAll s ls).filterMap (·.2)

/-- The sequence of (diff position, kind, file line number) annotations the
annotation pass attaches to a diff. -/
def annotatedLines (diff : Str) : List AnnLine :=
  annLinesAux ⟨0, 0, 0⟩ (splitChar '\n' diff)

/-- The scan of `findActualLineNumber` (gitlab.go lines 267-336): replay
the same counters; on each consuming line, after incrementing, return the
file line number as soon as the line's kind equals the requested
`LineType` and the running position equals the requested `LineNumber`. -/
def findAux (pc : PositionedComment) : DiffState → List Str → Option Int
  | _, [] => none
  | s, line :: rest =>
    if startsWith line "@@".toList then
      findAux pc (hunkUpdate s line) rest
    else if startsWith line "+".toList then
      let s' := { s with new := s.new + 1, pos := s.pos + 1 }
      if pc.LineType = "new".toList ∧ s'.pos = pc.LineNumber then some s'.new
      else findAux pc s' rest
    else if startsWith line "-".toList then
      let s' := { s with old := s.old + 1, pos := s.pos + 1 }
      if pc.LineType = "old".toList ∧ s'.pos = pc.LineNumber then some s'.old
      else findAux pc s' rest
    else if startsWith line " ".toList then
      let s' := { s with old := s.old + 1, new := s.new + 1, pos := s.pos + 1 }
      if pc.LineType = "context".toList ∧ s'.pos = pc.LineNumber then some s'.new
      else findAux pc s' rest
    else
      findAux pc s rest

/-- `findActualLineNumber`: `none` models the not-found error return. -/
def findActualLineNumber (diff : Str) (pc : PositionedComment) : Option Int :=
  findAux pc ⟨0, 0, 0⟩ (splitChar '\n' diff)

/-- The pure part of `convertDiffLineToActualLine` (gitlab.go lines
242-265), applied to the fetched change list: locate the first change
whose new or old path equals the comment's file path and resolve inside
its diff; `none` models both error returns. -/
def convertDiffLineToActualLine (diffs : List MRChange) (pc : PositionedComment) : Option Int :=
  match diffs.find? (fun d => d.NewPath == pc.FilePath || d.OldPath == pc.FilePath) with
  | some d => findActualLineNumber d.Diff pc
  | none => none

/-- A line that consumes a diff position: added, removed or context, i.e.
it starts with `+`, `-` or a space and is not a `@@` hunk header. -/
def consumes (line : Str) : Bool :=
  !startsWith line "@@".toList &&
    (startsWith line "+".toList || startsWith line "-".toList ||
      startsWith line " ".toList)

/-- `[start, start+1, ..., start+n-1]` over `Int`. -/
def intRange (start : Int) (n : Nat) : List Int :=
  (List.range n).map (fun (i : Nat) => start + (i : Int))

/-! ## The response parser (parseReview, review.go part_001 lines 283-359) -/

/-- The mutable state of the `parseReview` loop. -/
structure ParseSt where
  summary : Str
  comments : List Str
  positioned : List PositionedComment
  inSummary : Bool
deriving DecidableEq, Repr

/-- The positioned-comment parse attempted on the text after `COMMENT:`:
`strings.SplitN(comment, ":", 5)`, exactly 5 fields, second field an
integer. -/
def posParse (comment : Str) : Option PositionedComment :=
  match splitNChar ':' 5 comment with
  | [fp, ln, lt, sv, tx] =>
    match atoiOpt ln with
    | some n =>
      some { FilePath := fp, LineNumber := n, LineType := lt, Severity := sv,
             Comment := tx, OriginalLine := [], LineCode := [] }
    | none => none
  | _ => none

/-- One iteration of the `parseReview` loop. -/
def parseLine (st : ParseSt) (rawLine : Str) : ParseSt :=
  let line := trimSpace rawLine
  if startsWith line "COMMENT:".toList then
    let st1 := { st with inSummary := false }
    let comment := trimSpace (dropPre "COMMENT:".toList line)
    if comment = [] then st1
    else
      match posParse comment with
      | some pc => { st1 with positioned := st1.positioned ++ [pc] }
      | none => { st1 with comments := st1.comments ++ [comment] }
  else if st.inSummary ∧ line ≠ [] then
    { st with summary := if st.summary ≠ [] then st.summary ++ (' ' :: line) else line }
  else
    st

/-- `parseReview`. -/
def parseReview (text : Str) : CodeReview :=
  let st := (splitChar '\n' text).foldl parseLine ⟨[], [], [], true⟩
  { Summary := st.summary, Comments := st.comments, PositionedComments := st.positioned }

/-- Whether a raw line is a `COMMENT:` line. -/
def isCommentLine (raw : Str) : Bool :=
  startsWith (trimSpace raw) "COMMENT:".toList

/-- The positioned comment a single response line contributes, if any. -/
def posOutcome (raw : Str) : Option PositionedComment :=
  if startsWith (trimSpace raw) "COMMENT:".toList then
    if trimSpace (dropPre "COMMENT:".toList (trimSpace raw)) = [] then none
    else posParse (trimSpace (dropPre "COMMENT:".toList (trimSpace raw)))
  else none

/-- The unpositioned comment a single response line contributes, if any. -/
def unposOutcome (raw : Str) : Option Str :=
  if startsWith (trimSpace raw) "COMMENT:".toList then
    if trimSpace (dropPre "COMMENT:".toList (trimSpace raw)) = [] then none
    else
      match posParse (trimSpace (dropPre "COMMENT:".toList (trimSpace raw))) with
      | some _ => none
      | none => some (trimSpace (dropPre "COMMENT:".toList (trimSpace raw)))
  else none

/-- Space-join a list of fragments, exactly as the summary accumulator
does (a separating space before every fragment but the first). -/
def joinSp (L : List Str) : Str :=
  L.foldl (fun acc l => if acc ≠ [] then acc ++ (' ' :: l) else l) []

/-- The summary the spec describes: the space-join of the non-empty
trimmed lines preceding the first `COMMENT:` line. -/
def summarySpec (text : Str) : Str :=
  joinSp ((((splitChar '\n' text).takeWhile (fun l => !isCommentLine l)).map trimSpace).filter
    (· ≠ []))

/-- The unpositioned comments of a response, in encounter order. -/
def unposSpec (text : Str) : List Str :=
  (splitChar '\n' text).filterMap unposOutcome

/-- The positioned comments of a response, in encounter order. -/
def posSpec (text : Str) : List PositionedComment :=
  (splitChar '\n' text).filterMap posOutcome

/-! ## path/filepath.Match

`shouldExcludePath` calls `filepath.Match`.  The functions below embed
`path/filepath/match.go` of the Go standard library (unix `Separator`,
i.e. `'/'`): `getEsc`, `matchChunk`, `scanChunk` and `Match`.  The Go
loops iterate while the pattern (resp. chunk) shrinks; here each loop
carries a `Nat` fuel initialized to one more than the length of the
string it consumes, which therefore never runs out.  `Except Unit`
models the `ErrBadPattern` error return. -/

deriving instance DecidableEq for Except

/-- `getEsc`: one character of a character class, possibly escaped. -/
def getEsc : Str → Except Unit (Char × Str)
  | [] => .error ()
  | c :: rest =>
    if c = '-' ∨ c = ']' then .error ()
    else
      let s := if c = '\\' then rest else c :: rest
      match s with
      | [] => .error ()
      | r :: rest2 => if rest2 = [] then .error () else .ok (r, rest2)

/-- The range-parsing loop of `matchChunk`'s `[` case: parse `lo`
(optionally `-hi`) pairs until an unescaped `]` closes a non-empty
class, accumulating whether `r` fell in some range. -/
def classRanges (r : Char) : Nat → Str → Bool → Nat → Except Unit (Str × Bool)
  | 0, _, _, _ => .error ()
  | fuel + 1, chunk, m, nrange =>
    match chunk with
    | ']' :: rest =>
      if 0 < nrange then .ok (rest, m) else .error ()
    | _ =>
      match getEsc chunk with
      | .error _ => .error ()
      | .ok (lo, chunk1) =>
        match (if chunk1.headD ' ' = '-' then getEsc (chunk1.drop 1) else .ok (lo, chunk1)) with
        | .error _ => .error ()
        | .ok (hi, chunk2) =>
          classRanges r fuel chunk2
            (m || (decide (lo.toNat ≤ r.toNat) && decide (r.toNat ≤ hi.toNat))) (nrange + 1)

/-- `matchChunk chunk s`: try to match the star-free chunk at the front
of `s`; after a mismatch it keeps scanning the chunk for syntax errors
(`failed` flag).  `.ok (some t)` = matched with remainder `t`,
`.ok none` = no match, `.error` = bad pattern. -/
def matchChunkF : Nat → Str → Str → Bool → Except Unit (Option Str)
  | 0, _, _, _ => .error ()
  | fuel + 1, chunk, s, failed0 =>
    match chunk with
    | [] => if failed0 then .ok none else .ok (some s)
    | c :: rest =>
      let failed := failed0 || s.isEmpty
      if c = '[' then
        let r := if failed then Char.ofNat 0 else s.headD (Char.ofNat 0)
        let s1 := if failed then s else s.drop 1
        let negChunk : Bool × Str :=
          match rest with
          | '^' :: t => (true, t)
          | _ => (false, rest)
        match classRanges r (negChunk.2.length + 1) negChunk.2 false 0 with
        | .error _ => .error ()
        | .ok (chunk2, m) =>
          matchChunkF fuel chunk2 s1 (if m = negChunk.1 then true else failed)
      else if c = '?' then
        let failed1 := if !failed && s.headD ' ' = '/' then true else failed
        let s1 := if failed then s else s.drop 1
        matchChunkF fuel rest s1 failed1
      else if c = '\\' then
        match rest with
        | [] => .error ()
        | d :: rest2 =>
          let failed1 := if !failed && !(d = s.headD ' ') then true else failed
          let s1 := if failed then s else s.drop 1
          matchChunkF fuel rest2 s1 failed1
      else
        let failed1 := if !failed && !(c = s.headD ' ') then true else failed
        let s1 := if failed then s else s.drop 1
        matchChunkF fuel rest s1 failed1

/-- The chunk scanner of `scanChunk`: collect characters up to the next
unescaped `*` outside a character class. -/
def scanBody : Str → Bool → Str × Str
  | [], _ => ([], [])
  | c :: rest, inrange =>
    if c = '*' ∧ ¬inrange then ([], c :: rest)
    else if c = '\\' then
      match rest with
      | d :: rest2 =>
        let p := scanBody rest2 inrange
        (c :: d :: p.1, p.2)
      | [] => ([c], [])
    else
      let inr := if c = '[' then true else if c = ']' then false else inrange
      let p := scanBody rest inr
      (c :: p.1, p.2)

/-- `scanChunk`: strip leading stars, then the next star-free chunk. -/
def scanChunk (pat : Str) : Bool × Str × Str :=
  let p := pat.dropWhile (· = '*')
  let cr := scanBody p false
  (!(pat.takeWhile (· = '*')).isEmpty, cr.1, cr.2)

/-- The star loop of `Match`: retry the chunk at each later byte of the
name, not crossing a `/`. -/
def starTry (chunk restPat : Str) : Str → Except Unit (Option Str)
  | [] => .ok none
  | c :: tailName =>
    if c = '/' then .ok none
    else
      match matchChunkF (chunk.length + 1) chunk tailName false with
      | .error _ => .error ()
      | .ok (some t) =>
        if restPat.isEmpty && !t.isEmpty then starTry chunk restPat tailName
        else .ok (some t)
      | .ok none => starTry chunk restPat tailName

/-- The final loop of `Match`: before returning a no-error mismatch,
check the remaining pattern is syntactically valid. -/
def validateRest : Nat → Str → Except Unit Unit
  | 0, _ => .error ()
  | _, [] => .ok ()
  | fuel + 1, p =>
    let scr := scanChunk p
    match matchChunkF (scr.2.1.length + 1) scr.2.1 [] false with
    | .error _ => .error ()
    | .ok _ => validateRest fuel scr.2.2

/-- The main loop of `filepath.Match`. -/
def matchGoF : Nat → Str → Str → Except Unit Bool
  | 0, _, _ => .error ()
  | fuel + 1, pat, name =>
    match pat with
    | [] => .ok name.isEmpty
    | _ =>
      let scr := scanChunk pat
      let star := scr.1
      let chunk := scr.2.1
      let rest := scr.2.2
      if star ∧ chunk = [] then
        .ok (!name.contains '/')
      else
        match matchChunkF (chunk.length + 1) chunk name false with
        | .error _ => .error ()
        | .ok r =>
          let cont : Option Str :=
            match r with
            | some t => if t.isEmpty || !rest.isEmpty then some t else none
            | none => none
          match cont with
          | some t => matchGoF fuel rest t
          | none =>
            match (if star then starTry chunk rest name else .ok none) with
            | .error _ => .error ()
            | .ok (some t2) => matchGoF fuel rest t2
            | .ok none =>
              match validateRest (rest.length + 1) rest with
              | .error _ => .error ()
              | .ok _ => .ok false

/-- `filepath.Match pat name` (unix separator). -/
def matchGo (pat name : Str) : Except Unit Bool :=
  matchGoF (pat.length + 1) pat name

/-! ## The path filter (review.go part_001 lines 361-413) -/

/-- `shouldExcludePath`: scan the patterns; an invalid pattern
(`filepath.Match` error) is skipped entirely; a glob match excludes; a
pattern ending in `/**` also excludes when the path equals its stripped
stem or starts with the stem followed by `/`. -/
def shouldExcludePath (filePath : Str) : List Str → Bool
  | [] => false
  | pat :: rest =>
    match matchGo pat filePath with
    | .error _ => shouldExcludePath filePath rest
    | .ok matched =>
      if matched then true
      else
        if endsWith pat "/**".toList then
          let stem := trimSuf "/**".toList pat
          if startsWith filePath (stem ++ ['/']) || filePath == stem then true
          else shouldExcludePath filePath rest
        else shouldExcludePath filePath rest

/-- The path a change is filtered by in `filterExcludedChanges`: the new
path, or the old path when the new path is empty. -/
def effectivePath (c : MRChange) : Str :=
  if c.NewPath = [] then c.OldPath else c.NewPath

/-- The loop body of `filterExcludedChanges`, splitting the changes into
kept changes and excluded paths in input order. -/
def filterLoop (pats : List Str) : List MRChange → List MRChange × List Str
  | [] => ([], [])
  | change :: rest =>
    let r := filterLoop pats rest
    if shouldExcludePath (effectivePath change) pats then (r.1, effectivePath change :: r.2)
    else (change :: r.1, r.2)

/-- `filterExcludedChanges` (a `nil` Go config pointer is `none`). -/
def filterExcludedChanges (changes : List MRChange) (config : Option WhyThoConfig) :
    List MRChange × List Str :=
  match config with
  | none => (changes, [])
  | some cfg =>
    if cfg.ExcludePaths = [] then (changes, [])
    else filterLoop cfg.ExcludePaths changes

/-- The pattern list carried by an optional config. -/
def patsOf : Option WhyThoConfig → List Str
  | some cfg => cfg.ExcludePaths
  | none => []

/-- Modelled from the claim wording of C5 (the spec's stated
iff-condition for exclusion): the path matches some pattern under the
glob semantics, or some pattern ends in `/**` and the path equals its
stem or starts with the stem followed by `/` — with no exception for
invalid patterns in the second disjunct. -/
def shouldExcludeSpec (filePath : Str) (excludePaths : List Str) : Bool :=
  excludePaths.any (fun pat =>
    (matchGo pat filePath == Except.ok true) ||
    (endsWith pat "/**".toList &&
      (filePath == trimSuf "/**".toList pat ||
        startsWith filePath (trimSuf "/**".toList pat ++ ['/']))))

/-- Modelled from the claim wording of C6: the path a change would be
matched by if deleted files used the old path and all others the new
path. -/
def claimPath (c : MRChange) : Str :=
  if c.DeletedFile then c.OldPath else c.NewPath

/-- Modelled from the claim wording of C6: order-preserving filtering of
the changes by `claimPath`. -/
def filterChangesClaim (changes : List MRChange) (cfg : WhyThoConfig) :
    List MRChange × List Str :=
  (changes.filter (fun c => !shouldExcludePath (claimPath c) cfg.ExcludePaths),
   (changes.filter (fun c => shouldExcludePath (claimPath c) cfg.ExcludePaths)).map claimPath)

/-! ## WhyTho config lookup (gitlab.go lines 418-469)

The YAML library and the GitLab fetch are external collaborators; they
are passed in as `yamlParse` (what `yaml.Unmarshal` produces on given
bytes) and `branchResult` (what `getWhyThoConfigFromBranch` would
return). -/

/-- The YAML text `parseWhyThoConfigFromDiff` reconstructs from a diff:
every line starting with `+` but not `+++`, leading `+` stripped, each
with a trailing newline, in order. -/
def yamlContentFromDiff (diff : Str) : Str :=
  (((splitChar '\n' diff).filter
      (fun line => startsWith line "+".toList && !startsWith line "+++".toList)).map
    (fun line => dropPre "+".toList line ++ ['\n'])).flatten

/-- `parseWhyThoConfigFromDiff`. -/
def parseWhyThoConfigFromDiff (yamlParse : Str → Except Str WhyThoConfig) (diff : Str) :
    Except Str WhyThoConfig :=
  yamlParse (yamlContentFromDiff diff)

/-- `GetWhyThoConfig`: the first non-deleted change at
`.whytho/config.yaml` is parsed from its diff; on parse failure (or when
no such change exists) fall back to the target branch. -/
def GetWhyThoConfig (yamlParse : Str → Except Str WhyThoConfig)
    (branchResult : Except Str WhyThoConfig) (changes : List MRChange) :
    Except Str WhyThoConfig :=
  match changes.find? (fun c => c.NewPath == ".whytho/config.yaml".toList && !c.DeletedFile) with
  | some c =>
    match parseWhyThoConfigFromDiff yamlParse c.Diff with
    | .ok cfg => .ok cfg
    | .error _ => branchResult
  | none => branchResult

/-- The per-line contribution to the reconstructed YAML text, as claim
C10 words it: added lines (starting with `+` but not `+++`) contribute
their text with the `+` stripped; all other lines contribute nothing. -/
def addedLineContent (line : Str) : Option Str :=
  if startsWith line "+".toList && !startsWith line "+++".toList then
    some (dropPre "+".toList line ++ ['\n'])
  else none

/-! # Theorems -/

/-! ## The diff numbering state machine -/

theorem hunkUpdate_pos (s : DiffState) (line : Str) : (hunkUpdate s line).pos = s.pos := by
  unfold hunkUpdate
  rcases h1 : (hunkStarts line).1 with _ | v <;>
    rcases h2 : (hunkStarts line).2 with _ | w <;> simp

theorem hunkUpdate_old_none (s : DiffState) (line : Str) (h : (hunkStarts line).1 = none) :
    (hunkUpdate s line).old = s.old := by
  unfold hunkUpdate
  rw [h]
  rcases h2 : (hunkStarts line).2 with _ | w <;> simp

theorem hunkUpdate_new_none (s : DiffState) (line : Str) (h : (hunkStarts line).2 = none) :
    (hunkUpdate s line).new = s.new := by
  unfold hunkUpdate
  rw [h]
  rcases h1 : (hunkStarts line).1 with _ | v <;> simp

theorem annLinesAux_nil (s : DiffState) : annLinesAux s [] = [] := rfl

theorem annLinesAux_cons (s : DiffState) (l : Str) (ls : List Str) :
    annLinesAux s (l :: ls) =
      ((annotateStep s l).2.2.toList) ++ annLinesAux (annotateStep s l).1 ls := by
  simp only [annLinesAux, annotateAll, List.filterMap_cons]
  rcases (annotateStep s l).2.2 with _ | e <;> simp

theorem findAux_cons (pc : PositionedComment) (s : DiffState) (l : Str) (rest : List Str) :
    findAux pc s (l :: rest) =
      if startsWith l "@@".toList then findAux pc (hunkUpdate s l) rest
      else if startsWith l "+".toList then
        (if pc.LineType = "new".toList ∧ s.pos + 1 = pc.LineNumber then some (s.new + 1)
         else findAux pc { s with new := s.new + 1, pos := s.pos + 1 } rest)
      else if startsWith l "-".toList then
        (if pc.LineType = "old".toList ∧ s.pos + 1 = pc.LineNumber then some (s.old + 1)
         else findAux pc { s with old := s.old + 1, pos := s.pos + 1 } rest)
      else if startsWith l " ".toList then
        (if pc.LineType = "context".toList ∧ s.pos + 1 = pc.LineNumber then some (s.new + 1)
         else findAux pc { s with old := s.old + 1, new := s.new + 1, pos := s.pos + 1 } rest)
      else findAux pc s rest := rfl

theorem annotateStep_hunk (s : DiffState) (l : Str) (h : startsWith l "@@".toList = true) :
    (annotateStep s l).1 = hunkUpdate s l ∧ (annotateStep s l).2.2 = none := by
  unfold annotateStep
  rw [if_pos h]
  exact ⟨rfl, rfl⟩

theorem annotateStep_plus (s : DiffState) (l : Str)
    (h1 : ¬startsWith l "@@".toList = true) (h2 : startsWith l "+".toList = true) :
    (annotateStep s l).1 = { s with new := s.new + 1, pos := s.pos + 1 } ∧
      (annotateStep s l).2.2 = some ⟨s.pos + 1, .added, s.new + 1⟩ := by
  unfold annotateStep
  rw [if_neg h1, if_pos h2]
  exact ⟨rfl, rfl⟩

theorem annotateStep_minus (s : DiffState) (l : Str)
    (h1 : ¬startsWith l "@@".toList = true) (h2 : ¬startsWith l "+".toList = true)
    (h3 : startsWith l "-".toList = true) :
    (annotateStep s l).1 = { s with old := s.old + 1, pos := s.pos + 1 } ∧
      (annotateStep s l).2.2 = some ⟨s.pos + 1, .removed, s.old + 1⟩ := by
  unfold annotateStep
  rw [if_neg h1, if_neg h2, if_pos h3]
  exact ⟨rfl, rfl⟩

theorem annotateStep_space (s : DiffState) (l : Str)
    (h1 : ¬startsWith l "@@".toList = true) (h2 : ¬startsWith l "+".toList = true)
    (h3 : ¬startsWith l "-".toList = true) (h4 : startsWith l " ".toList = true) :
    (annotateStep s l).1 = { s with old := s.old + 1, new := s.new + 1, pos := s.pos + 1 } ∧
      (annotateStep s l).2.2 = some ⟨s.pos + 1, .context, s.new + 1⟩ := by
  unfold annotateStep
  rw [if_neg h1, if_neg h2, if_neg h3, if_pos h4]
  exact ⟨rfl, rfl⟩

theorem annotateStep_other (s : DiffState) (l : Str)
    (h1 : ¬startsWith l "@@".toList = true) (h2 : ¬startsWith l "+".toList = true)
    (h3 : ¬startsWith l "-".toList = true) (h4 : ¬startsWith l " ".toList = true) :
    annotateStep s l = (s, l, none) := by
  unfold annotateStep
  rw [if_neg h1, if_neg h2, if_neg h3, if_neg h4]

/-- The inverse law at the level of the shared scan: any annotation
produced from state `s` has a position above `s.pos`, and `findAux`
started at `s` with that position and kind returns its line number. -/
theorem annLinesAux_find (pc : PositionedComment) :
    ∀ (ls : List Str) (s : DiffState) (e : AnnLine),
      e ∈ annLinesAux s ls →
      s.pos < e.pos ∧
        (pc.LineNumber = e.pos → pc.LineType = kindStr e.kind →
          findAux pc s ls = some e.lineNo) := by
  intro ls
  induction ls with
  | nil => intro s e h; simp [annLinesAux, annotateAll] at h
  | cons l ls ih =>
    intro s e hmem
    rw [annLinesAux_cons] at hmem
    by_cases h1 : startsWith l "@@".toList
    · rw [(annotateStep_hunk s l h1).1, (annotateStep_hunk s l h1).2] at hmem
      simp only [Option.toList_none, List.nil_append] at hmem
      obtain ⟨hlt, hf⟩ := ih (hunkUpdate s l) e hmem
      refine ⟨by rw [← hunkUpdate_pos s l]; exact hlt, fun hp hk => ?_⟩
      rw [findAux_cons, if_pos h1]
      exact hf hp hk
    · by_cases h2 : startsWith l "+".toList
      · rw [(annotateStep_plus s l h1 h2).1, (annotateStep_plus s l h1 h2).2] at hmem
        simp only [Option.toList_some, List.singleton_append, List.mem_cons] at hmem
        rcases hmem with rfl | hmem
        · refine ⟨by simp, fun hp hk => ?_⟩
          rw [findAux_cons, if_neg h1, if_pos h2, if_pos ⟨hk, hp.symm⟩]
        · obtain ⟨hlt, hf⟩ := ih _ e hmem
          have hlt' : s.pos + 1 < e.pos := hlt
          refine ⟨by omega, fun hp hk => ?_⟩
          rw [findAux_cons, if_neg h1, if_pos h2,
            if_neg (by rintro ⟨-, hq⟩; rw [hp] at hq; omega)]
          exact hf hp hk
      · by_cases h3 : startsWith l "-".toList
        · rw [(annotateStep_minus s l h1 h2 h3).1, (annotateStep_minus s l h1 h2 h3).2] at hmem
          simp only [Option.toList_some, List.singleton_append, List.mem_cons] at hmem
          rcases hmem with rfl | hmem
          · refine ⟨by simp, fun hp hk => ?_⟩
            rw [findAux_cons, if_neg h1, if_neg h2, if_pos h3, if_pos ⟨hk, hp.symm⟩]
          · obtain ⟨hlt, hf⟩ := ih _ e hmem
            have hlt' : s.pos + 1 < e.pos := hlt
            refine ⟨by omega, fun hp hk => ?_⟩
            rw [findAux_cons, if_neg h1, if_neg h2, if_pos h3,
              if_neg (by rintro ⟨-, hq⟩; rw [hp] at hq; omega)]
            exact hf hp hk
        · by_cases h4 : startsWith l " ".toList
          · rw [(annotateStep_space s l h1 h2 h3 h4).1,
              (annotateStep_space s l h1 h2 h3 h4).2] at hmem
            simp only [Option.toList_some, List.singleton_append, List.mem_cons] at hmem
            rcases hmem with rfl | hmem
            · refine ⟨by simp, fun hp hk => ?_⟩
              rw [findAux_cons, if_neg h1, if_neg h2, if_neg h3, if_pos h4,
                if_pos ⟨hk, hp.symm⟩]
            · obtain ⟨hlt, hf⟩ := ih _ e hmem
              have hlt' : s.pos + 1 < e.pos := hlt
              refine ⟨by omega, fun hp hk => ?_⟩
              rw [findAux_cons, if_neg h1, if_neg h2, if_neg h3, if_pos h4,
                if_neg (by rintro ⟨-, hq⟩; rw [hp] at hq; omega)]
              exact hf hp hk
          · rw [annotateStep_other s l h1 h2 h3 h4] at hmem
            simp only [Option.toList_none, List.nil_append] at hmem
            obtain ⟨hlt, hf⟩ := ih s e hmem
            refine ⟨hlt, fun hp hk => ?_⟩
            rw [findAux_cons, if_neg h1, if_neg h2, if_neg h3, if_neg h4]
            exact hf hp hk

/-- Soundness of the scan of `findActualLineNumber`: a returned line
number always comes from an annotation whose position is the requested
one and whose kind is the requested kind. -/
theorem findAux_sound (pc : PositionedComment) :
    ∀ (ls : List Str) (s : DiffState) (n : Int),
      findAux pc s ls = some n →
      ∃ e ∈ annLinesAux s ls,
        e.pos = pc.LineNumber ∧ kindStr e.kind = pc.LineType ∧ e.lineNo = n := by
  intro ls
  induction ls with
  | nil => intro s n h; simp [findAux] at h
  | cons l ls ih =>
    intro s n h
    rw [findAux_cons] at h
    rw [annLinesAux_cons]
    by_cases h1 : startsWith l "@@".toList
    · rw [if_pos h1] at h
      rw [(annotateStep_hunk s l h1).1, (annotateStep_hunk s l h1).2]
      simp only [Option.toList_none, List.nil_append]
      exact ih _ n h
    · rw [if_neg h1] at h
      by_cases h2 : startsWith l "+".toList
      · rw [if_pos h2] at h
        rw [(annotateStep_plus s l h1 h2).1, (annotateStep_plus s l h1 h2).2]
        simp only [Option.toList_some, List.singleton_append]
        by_cases hc : pc.LineType = "new".toList ∧ s.pos + 1 = pc.LineNumber
        · rw [if_pos hc] at h
          refine ⟨_, List.mem_cons_self _ _, hc.2, hc.1.symm, ?_⟩
          exact Option.some_inj.mp h
        · rw [if_neg hc] at h
          obtain ⟨e, hm, he⟩ := ih _ n h
          exact ⟨e, List.mem_cons_of_mem _ hm, he⟩
      · rw [if_neg h2] at h
        by_cases h3 : startsWith l "-".toList
        · rw [if_pos h3] at h
          rw [(annotateStep_minus s l h1 h2 h3).1, (annotateStep_minus s l h1 h2 h3).2]
          simp only [Option.toList_some, List.singleton_append]
          by_cases hc : pc.LineType = "old".toList ∧ s.pos + 1 = pc.LineNumber
          · rw [if_pos hc] at h
            refine ⟨_, List.mem_cons_self _ _, hc.2, hc.1.symm, ?_⟩
            exact Option.some_inj.mp h
          · rw [if_neg hc] at h
            obtain ⟨e, hm, he⟩ := ih _ n h
            exact ⟨e, List.mem_cons_of_mem _ hm, he⟩
        · rw [if_neg h3] at h
          by_cases h4 : startsWith l " ".toList
          · rw [if_pos h4] at h
            rw [(annotateStep_space s l h1 h2 h3 h4).1, (annotateStep_space s l h1 h2 h3 h4).2]
            simp only [Option.toList_some, List.singleton_append]
            by_cases hc : pc.LineType = "context".toList ∧ s.pos + 1 = pc.LineNumber
            · rw [if_pos hc] at h
              refine ⟨_, List.mem_cons_self _ _, hc.2, hc.1.symm, ?_⟩
              exact Option.some_inj.mp h
            · rw [if_neg hc] at h
              obtain ⟨e, hm, he⟩ := ih _ n h
              exact ⟨e, List.mem_cons_of_mem _ hm, he⟩
          · rw [if_neg h4] at h
            rw [annotateStep_other s l h1 h2 h3 h4]
            simp only [Option.toList_none, List.nil_append]
            exact ih _ n h

theorem intRange_succ (a : Int) (n : Nat) : intRange a (n + 1) = a :: intRange (a + 1) n := by
  unfold intRange
  rw [List.range_succ_eq_map, List.map_cons, List.map_map]
  congr 1
  · simp
  · apply List.map_congr_left
    intro i _
    simp only [Function.comp_apply]
    push_cast
    ring

/-- The positions produced from state `s` are exactly the consecutive
integers starting right after `s.pos`, one per consuming line. -/
theorem annLinesAux_map_pos :
    ∀ (ls : List Str) (s : DiffState),
      (annLinesAux s ls).map AnnLine.pos = intRange (s.pos + 1) (ls.countP consumes) := by
  intro ls
  induction ls with
  | nil => intro s; simp [annLinesAux, annotateAll, intRange]
  | cons l ls ih =>
    intro s
    rw [annLinesAux_cons, List.countP_cons]
    by_cases h1 : startsWith l "@@".toList
    · have hcons : consumes l = false := by unfold consumes; rw [h1]; rfl
      rw [(annotateStep_hunk s l h1).1, (annotateStep_hunk s l h1).2]
      simp only [Option.toList_none, List.nil_append]
      rw [ih, hunkUpdate_pos, hcons]
      simp
    · by_cases h2 : startsWith l "+".toList
      · have hcons : consumes l = true := by
          unfold consumes; rw [eq_false_of_ne_true h1, h2]; simp
        rw [(annotateStep_plus s l h1 h2).1, (annotateStep_plus s l h1 h2).2]
        simp only [Option.toList_some, List.singleton_append, List.map_cons]
        rw [ih, hcons]
        simp [intRange_succ]
      · by_cases h3 : startsWith l "-".toList
        · have hcons : consumes l = true := by
            unfold consumes; rw [eq_false_of_ne_true h1, h3]; simp
          rw [(annotateStep_minus s l h1 h2 h3).1, (annotateStep_minus s l h1 h2 h3).2]
          simp only [Option.toList_some, List.singleton_append, List.map_cons]
          rw [ih, hcons]
          simp [intRange_succ]
        · by_cases h4 : startsWith l " ".toList
          · have hcons : consumes l = true := by
              unfold consumes; rw [eq_false_of_ne_true h1, h4]; simp
            rw [(annotateStep_space s l h1 h2 h3 h4).1, (annotateStep_space s l h1 h2 h3 h4).2]
            simp only [Option.toList_some, List.singleton_append, List.map_cons]
            rw [ih, hcons]
            simp [intRange_succ]
          · have hcons : consumes l = false := by
              unfold consumes
              rw [eq_false_of_ne_true h1, eq_false_of_ne_true h2, eq_false_of_ne_true h3,
                eq_false_of_ne_true h4]
              rfl
            rw [annotateStep_other s l h1 h2 h3 h4]
            simp only [Option.toList_none, List.nil_append]
            rw [ih, hcons]
            simp

theorem consumes_false_parts (line : Str) (hc : consumes line = false)
    (h1 : ¬startsWith line "@@".toList = true) :
    ¬startsWith line "+".toList = true ∧ ¬startsWith line "-".toList = true ∧
      ¬startsWith line " ".toList = true := by
  unfold consumes at hc
  rw [eq_false_of_ne_true h1] at hc
  refine ⟨?_, ?_, ?_⟩ <;> intro h <;> rw [h] at hc <;> simp at hc

/-! ## Claims about the annotator and resolver -/

/-- C1: for every diff text and every annotation (position, kind, file
line number) the annotation pass attaches to a line, resolving that
position over the same diff with the matching line kind (`new` for
added, `old` for removed, `context` for context lines) returns exactly
the attached file line number. -/
theorem claim_c1_annotator_resolver_inverse (diff : Str) (e : AnnLine)
    (pc : PositionedComment) (hmem : e ∈ annotatedLines diff)
    (hpos : pc.LineNumber = e.pos) (hkind : pc.LineType = kindStr e.kind) :
    findActualLineNumber diff pc = some e.lineNo :=
  (annLinesAux_find pc (splitChar '\n' diff) ⟨0, 0, 0⟩ e hmem).2 hpos hkind

/-- C1 witness: on the example diff of spec section 8.6, position 2 with
kind `new` resolves to line 10. -/
theorem claim_c1_witness :
    findActualLineNumber
        ("@@ -10,2 +10,3 @@\n-old line\n+new line one\n+new line two\n context line".toList)
        { FilePath := "file.go".toList, LineNumber := 2, LineType := "new".toList } =
      some 10 :=
  claim_c1_annotator_resolver_inverse _ ⟨2, .added, 10⟩ _ (by decide) (by decide) (by decide)

/-- C2 (amended): the diff positions assigned by the annotation pass are
the contiguous increasing sequence 1, 2, ... covering exactly the lines
that start with `+`, `-` or a space and are not hunk headers — which
includes `+++`/`---` file-marker lines, treated as added/removed; hunk
headers and all other lines consume no position, and non-hunk
non-consuming lines pass through completely unchanged. -/
theorem claim_c2_position_monotonicity :
    (∀ diff : Str,
        (annotatedLines diff).map AnnLine.pos
          = intRange 1 ((splitChar '\n' diff).countP consumes)) ∧
      (∀ (s : DiffState) (line : Str), consumes line = false →
          (annotateStep s line).2.2 = none ∧ (annotateStep s line).1.pos = s.pos) ∧
      (∀ (s : DiffState) (line : Str), consumes line = false →
          ¬startsWith line "@@".toList = true → annotateStep s line = (s, line, none)) := by
  refine ⟨fun diff => annLinesAux_map_pos _ ⟨0, 0, 0⟩, fun s line hc => ?_,
    fun s line hc h1 => ?_⟩
  · by_cases h1 : startsWith line "@@".toList
    · obtain ⟨e1, e2⟩ := annotateStep_hunk s line h1
      exact ⟨e2, by rw [e1, hunkUpdate_pos]⟩
    · obtain ⟨h2, h3, h4⟩ := consumes_false_parts line hc h1
      rw [annotateStep_other s line h1 h2 h3 h4]
      exact ⟨rfl, rfl⟩
  · obtain ⟨h2, h3, h4⟩ := consumes_false_parts line hc h1
    exact annotateStep_other s line h1 h2 h3 h4

/-- C2 counterexample: a `+++` file-marker line does consume a diff
position and is annotated, contrary to the claim that such lines pass
through unannotated. -/
theorem claim_c2_counterexample :
    annotatedLines ("+++ b/f".toList) = [⟨1, .added, 1⟩] ∧
      addLineNumbersToDiff ("+++ b/f".toList) =
        "+++ b/f [DIFF_LINE:1,NEW_LINE:1]\n".toList := by
  constructor <;> decide

/-- C2 witness: a non-consuming, non-hunk line (here an `index` metadata
line) passes through with no state change and no annotation. -/
theorem claim_c2_witness :
    annotateStep ⟨1, 2, 3⟩ ("index 0123..4567 100644".toList) =
      (⟨1, 2, 3⟩, "index 0123..4567 100644".toList, none) :=
  claim_c2_position_monotonicity.2.2 ⟨1, 2, 3⟩ _ (by decide) (by decide)

/-- C7: line resolution fails (returns no line number) when no change
carries the requested path, and a returned line number always comes from
the annotation at the requested position with the requested kind — so
when the scan completes without such a match (in particular on a kind
mismatch at the target position) the result is the not-found failure,
never a line number of another kind. -/
theorem claim_c7_resolution_failure :
    (∀ (diffs : List MRChange) (pc : PositionedComment),
        (∀ d ∈ diffs, d.NewPath ≠ pc.FilePath ∧ d.OldPath ≠ pc.FilePath) →
          convertDiffLineToActualLine diffs pc = none) ∧
      (∀ (diff : Str) (pc : PositionedComment) (n : Int),
          findActualLineNumber diff pc = some n →
            ∃ e ∈ annotatedLines diff,
              e.pos = pc.LineNumber ∧ kindStr e.kind = pc.LineType ∧ e.lineNo = n) ∧
      (∀ (diff : Str) (pc : PositionedComment),
          (∀ e ∈ annotatedLines diff,
              ¬(e.pos = pc.LineNumber ∧ kindStr e.kind = pc.LineType)) →
            findActualLineNumber diff pc = none) := by
  refine ⟨fun diffs pc h => ?_, fun diff pc n h => findAux_sound pc _ _ n h,
    fun diff pc h => ?_⟩
  · have hnone : diffs.find?
        (fun d => d.NewPath == pc.FilePath || d.OldPath == pc.FilePath) = none := by
      rw [List.find?_eq_none]
      intro d hd
      simp only [Bool.or_eq_true, beq_iff_eq]
      push_neg
      exact ⟨(h d hd).1, (h d hd).2⟩
    unfold convertDiffLineToActualLine
    rw [hnone]
  · cases hfind : findActualLineNumber diff pc with
    | none => rfl
    | some n =>
      obtain ⟨e, hm, hp, hk, -⟩ := findAux_sound pc _ _ n hfind
      exact absurd ⟨hp, hk⟩ (h e hm)

/-- C7 witness: a kind mismatch at the target position (position 1 of
`+a` is an added line, requested kind `old`) yields the not-found
result. -/
theorem claim_c7_witness :
    findActualLineNumber ("+a".toList) { LineNumber := 1, LineType := "old".toList } = none :=
  claim_c7_resolution_failure.2.2 _ _ (by decide)

/-- C9: on a `@@` line whose old-start or new-start token does not parse
as a numeral, the corresponding counter keeps its prior value, the scan
continues with the following lines, and no hunk-header line ever changes
the diff-position counter — in both the annotator and the resolver. -/
theorem claim_c9_malformed_hunk_header (s : DiffState) (line : Str)
    (pc : PositionedComment) (rest : List Str)
    (h : startsWith line "@@".toList = true) :
    (annotateStep s line).1.pos = s.pos ∧
      (annotateStep s line).2.2 = none ∧
      ((hunkStarts line).1 = none → (annotateStep s line).1.old = s.old) ∧
      ((hunkStarts line).2 = none → (annotateStep s line).1.new = s.new) ∧
      findAux pc s (line :: rest) = findAux pc (hunkUpdate s line) rest ∧
      (hunkUpdate s line).pos = s.pos := by
  obtain ⟨e1, e2⟩ := annotateStep_hunk s line h
  exact ⟨by rw [e1, hunkUpdate_pos], e2,
    fun ho => by rw [e1, hunkUpdate_old_none _ _ ho],
    fun hn => by rw [e1, hunkUpdate_new_none _ _ hn],
    by rw [findAux_cons, if_pos h], hunkUpdate_pos s line⟩

/-- C9 witness: on `@@ -x,2 +y @@` (both tokens non-numeric) the
counters `(old, new, pos) = (5, 7, 3)` are all left unchanged. -/
theorem claim_c9_witness :
    (annotateStep ⟨5, 7, 3⟩ ("@@ -x,2 +y @@".toList)).1.old = 5 ∧
      (annotateStep ⟨5, 7, 3⟩ ("@@ -x,2 +y @@".toList)).1.new = 7 ∧
      (annotateStep ⟨5, 7, 3⟩ ("@@ -x,2 +y @@".toList)).1.pos = 3 := by
  have T := claim_c9_malformed_hunk_header ⟨5, 7, 3⟩ ("@@ -x,2 +y @@".toList) {} []
    (by decide)
  exact ⟨T.2.2.1 (by decide), T.2.2.2.1 (by decide), T.1⟩

/-! ## The response parser -/

theorem parseLine_comments (st : ParseSt) (raw : Str) :
    (parseLine st raw).comments = st.comments ++ (unposOutcome raw).toList := by
  simp only [parseLine, unposOutcome]
  by_cases h : startsWith (trimSpace raw) "COMMENT:".toList
  · rw [if_pos h, if_pos h]
    by_cases he : trimSpace (dropPre "COMMENT:".toList (trimSpace raw)) = []
    · rw [if_pos he, if_pos he]
      simp
    · rw [if_neg he, if_neg he]
      rcases hpp : posParse (trimSpace (dropPre "COMMENT:".toList (trimSpace raw)))
        with _ | pc <;> simp
  · rw [if_neg h, if_neg h]
    split <;> simp

theorem parseLine_positioned (st : ParseSt) (raw : Str) :
    (parseLine st raw).positioned = st.positioned ++ (posOutcome raw).toList := by
  simp only [parseLine, posOutcome]
  by_cases h : startsWith (trimSpace raw) "COMMENT:".toList
  · rw [if_pos h, if_pos h]
    by_cases he : trimSpace (dropPre "COMMENT:".toList (trimSpace raw)) = []
    · rw [if_pos he, if_pos he]
      simp
    · rw [if_neg he, if_neg he]
      rcases hpp : posParse (trimSpace (dropPre "COMMENT:".toList (trimSpace raw)))
        with _ | pc <;> simp
  · rw [if_neg h, if_neg h]
    split <;> simp

theorem parseLine_inSummary (st : ParseSt) (raw : Str) :
    (parseLine st raw).inSummary = (st.inSummary && !isCommentLine raw) := by
  simp only [parseLine, isCommentLine]
  by_cases h : startsWith (trimSpace raw) "COMMENT:".toList
  · rw [if_pos h, h]
    split <;> (try split) <;> simp
  · rw [if_neg h, eq_false_of_ne_true h]
    split <;> simp

theorem parseLine_summary_comment (st : ParseSt) (raw : Str)
    (h : startsWith (trimSpace raw) "COMMENT:".toList = true) :
    (parseLine st raw).summary = st.summary := by
  simp only [parseLine]
  rw [if_pos h]
  split <;> (try split) <;> rfl

theorem parseLine_summary_false (st : ParseSt) (raw : Str) (h : st.inSummary = false) :
    (parseLine st raw).summary = st.summary := by
  by_cases hc : startsWith (trimSpace raw) "COMMENT:".toList
  · exact parseLine_summary_comment st raw hc
  · simp only [parseLine]
    rw [if_neg hc, if_neg (by rw [h]; rintro ⟨h1, -⟩; cases h1)]

theorem parseLine_frame (st : ParseSt) (raw : Str) (h : st.inSummary = false)
    (hc : isCommentLine raw = false) : parseLine st raw = st := by
  simp only [parseLine]
  rw [if_neg (by unfold isCommentLine at hc; rw [hc]; exact fun hh => by cases hh),
    if_neg (by rw [h]; rintro ⟨h1, -⟩; cases h1)]

theorem parseLine_summary_noncomment (st : ParseSt) (raw : Str)
    (hc : isCommentLine raw = false) (hs : st.inSummary = true) :
    (parseLine st raw).summary =
      if trimSpace raw ≠ [] then
        (if st.summary ≠ [] then st.summary ++ (' ' :: trimSpace raw) else trimSpace raw)
      else st.summary := by
  unfold isCommentLine at hc
  simp only [parseLine]
  rw [if_neg (by rw [hc]; exact fun hh => by cases hh)]
  by_cases hne : trimSpace raw = []
  · rw [if_neg (by rw [hne]; rintro ⟨-, h2⟩; exact h2 rfl), if_neg (by rw [hne]; simp)]
  · rw [if_pos ⟨hs, hne⟩, if_pos hne]

theorem foldl_parseLine_comments :
    ∀ (ls : List Str) (st : ParseSt),
      (ls.foldl parseLine st).comments = st.comments ++ ls.filterMap unposOutcome := by
  intro ls
  induction ls with
  | nil => intro st; simp
  | cons raw ls ih =>
    intro st
    rw [List.foldl_cons, ih, parseLine_comments, List.filterMap_cons]
    rcases h : unposOutcome raw with _ | c <;> simp

theorem foldl_parseLine_positioned :
    ∀ (ls : List Str) (st : ParseSt),
      (ls.foldl parseLine st).positioned = st.positioned ++ ls.filterMap posOutcome := by
  intro ls
  induction ls with
  | nil => intro st; simp
  | cons raw ls ih =>
    intro st
    rw [List.foldl_cons, ih, parseLine_positioned, List.filterMap_cons]
    rcases h : posOutcome raw with _ | c <;> simp

theorem foldl_parseLine_summary_false :
    ∀ (ls : List Str) (st : ParseSt), st.inSummary = false →
      (ls.foldl parseLine st).summary = st.summary := by
  intro ls
  induction ls with
  | nil => intro st _; rfl
  | cons raw ls ih =>
    intro st h
    rw [List.foldl_cons, ih _ (by rw [parseLine_inSummary, h]; rfl),
      parseLine_summary_false st raw h]

theorem foldl_parseLine_summary :
    ∀ (ls : List Str) (st : ParseSt), st.inSummary = true →
      (ls.foldl parseLine st).summary =
        (((ls.takeWhile (fun l => !isCommentLine l)).map trimSpace).filter (· ≠ [])).foldl
          (fun acc l => if acc ≠ [] then acc ++ (' ' :: l) else l) st.summary := by
  intro ls
  induction ls with
  | nil => intro st _; rfl
  | cons raw ls ih =>
    intro st h
    rw [List.foldl_cons]
    by_cases hc : isCommentLine raw
    · rw [List.takeWhile_cons_of_neg (by rw [hc]; exact fun hh => by cases hh)]
      have h1 : (parseLine st raw).inSummary = false := by
        rw [parseLine_inSummary, hc]
        simp
      rw [foldl_parseLine_summary_false ls _ h1,
        parseLine_summary_comment st raw (by unfold isCommentLine at hc; exact hc)]
      rfl
    · have hc' := eq_false_of_ne_true hc
      rw [List.takeWhile_cons_of_pos (by rw [hc']; rfl)]
      have h1 : (parseLine st raw).inSummary = true := by
        rw [parseLine_inSummary, hc', h]
        rfl
      rw [ih _ h1, List.map_cons]
      by_cases hne : trimSpace raw = []
      · rw [List.filter_cons_of_neg (by rw [hne]; simp),
          parseLine_summary_noncomment st raw hc' h, if_neg (by rw [hne]; simp)]
      · rw [List.filter_cons_of_pos (by simpa using hne), List.foldl_cons,
          parseLine_summary_noncomment st raw hc' h, if_pos hne]

/-! ## Claims about the response parser -/

/-- C4: for every input string the parser returns a Review Result whose
summary, unpositioned comments and positioned comments are exactly the
per-line outcomes in encounter order — it is total and never fails, with
unparsable lines degrading to unpositioned comments or summary text. -/
theorem claim_c4_parser_totality (text : Str) :
    parseReview text =
      { Summary := summarySpec text, Comments := unposSpec text,
        PositionedComments := posSpec text } := by
  unfold parseReview summarySpec unposSpec posSpec joinSp
  simp only [CodeReview.mk.injEq]
  exact ⟨foldl_parseLine_summary _ _ rfl, foldl_parseLine_comments _ _,
    foldl_parseLine_positioned _ _⟩

/-- C3: a trimmed `COMMENT:` line is classified in exactly one way: an
empty remainder contributes nothing (only flipping `inSummary`); a
remainder splitting into exactly 5 colon-fields with an integer second
field appends the positioned comment built from those fields; otherwise
the whole remainder is appended as one unpositioned comment — and the
positioned parse fails precisely when the 5-field split fails or the
second field is not an integer. -/
theorem claim_c3_comment_classification (st : ParseSt) (raw : Str)
    (h : isCommentLine raw = true) :
    (trimSpace (dropPre "COMMENT:".toList (trimSpace raw)) = [] →
        parseLine st raw = { st with inSummary := false }) ∧
      (∀ fp ln lt sv tx n,
          splitNChar ':' 5 (trimSpace (dropPre "COMMENT:".toList (trimSpace raw)))
              = [fp, ln, lt, sv, tx] →
          atoiOpt ln = some n →
          parseLine st raw =
            { st with
              inSummary := false,
              positioned := st.positioned ++
                [{ FilePath := fp, LineNumber := n, LineType := lt, Severity := sv,
                   Comment := tx, OriginalLine := [], LineCode := [] }] }) ∧
      (trimSpace (dropPre "COMMENT:".toList (trimSpace raw)) ≠ [] →
          posParse (trimSpace (dropPre "COMMENT:".toList (trimSpace raw))) = none →
          parseLine st raw =
            { st with
              inSummary := false,
              comments := st.comments ++
                [trimSpace (dropPre "COMMENT:".toList (trimSpace raw))] }) ∧
      (posParse (trimSpace (dropPre "COMMENT:".toList (trimSpace raw))) = none ↔
        ∀ fp ln lt sv tx,
          splitNChar ':' 5 (trimSpace (dropPre "COMMENT:".toList (trimSpace raw)))
              = [fp, ln, lt, sv, tx] → atoiOpt ln = none) := by
  unfold isCommentLine at h
  refine ⟨fun he => ?_, fun fp ln lt sv tx n hsp han => ?_, fun hne hpp => ?_, ?_⟩
  · simp only [parseLine]
    rw [if_pos h, if_pos he]
  · have hne : trimSpace (dropPre "COMMENT:".toList (trimSpace raw)) ≠ [] := by
      intro he
      rw [he] at hsp
      simp [splitNChar, breakFirst] at hsp
    have hpp : posParse (trimSpace (dropPre "COMMENT:".toList (trimSpace raw))) =
        some { FilePath := fp, LineNumber := n, LineType := lt, Severity := sv,
               Comment := tx, OriginalLine := [], LineCode := [] } := by
      unfold posParse
      rw [hsp]
      dsimp only
      rw [han]
    simp only [parseLine]
    rw [if_pos h, if_neg hne, hpp]
  · simp only [parseLine]
    rw [if_pos h, if_neg hne, hpp]
  · constructor
    · intro hpp fp ln lt sv tx hsp
      rcases han : atoiOpt ln with _ | n
      · rfl
      · exfalso
        unfold posParse at hpp
        rw [hsp] at hpp
        dsimp only at hpp
        rw [han] at hpp
        cases hpp
    · intro hall
      unfold posParse
      split
      · rename_i fp ln lt sv tx hsp
        rw [hall fp ln lt sv tx hsp]
      · rfl

/-- C3 witness: a well-formed comment line is parsed into its five
fields as a positioned comment. -/
theorem claim_c3_witness :
    parseLine ⟨[], [], [], true⟩ ("COMMENT:src/a.go:2:new:HIGH:Fix the name".toList) =
      ⟨[], [],
        [{ FilePath := "src/a.go".toList, LineNumber := 2, LineType := "new".toList,
           Severity := "HIGH".toList, Comment := "Fix the name".toList }], false⟩ :=
  (claim_c3_comment_classification ⟨[], [], [], true⟩
      ("COMMENT:src/a.go:2:new:HIGH:Fix the name".toList) (by decide)).2.1
    ("src/a.go".toList) ("2".toList) ("new".toList) ("HIGH".toList)
    ("Fix the name".toList) 2 (by decide) (by decide)

/-- C8: the summary equals the space-join of the non-empty trimmed lines
preceding the first `COMMENT:` line, and once `inSummary` is false a
non-`COMMENT:` line leaves the whole parser state unchanged (it
contributes to neither the summary nor any comment). -/
theorem claim_c8_summary_invariant (text : Str) (st : ParseSt) (raw : Str) :
    (parseReview text).Summary = summarySpec text ∧
      (st.inSummary = false → isCommentLine raw = false → parseLine st raw = st) := by
  constructor
  · unfold parseReview summarySpec joinSp
    exact foldl_parseLine_summary _ _ rfl
  · exact parseLine_frame st raw

/-- C8 witness: the summary of a response joins the non-blank lines
before the first comment, and a later orphan line changes nothing. -/
theorem claim_c8_witness :
    (parseReview ("Alpha\n\nBeta\nCOMMENT:x\nOrphan line".toList)).Summary =
        "Alpha Beta".toList ∧
      parseLine ⟨"s".toList, [], [], false⟩ ("Orphan line".toList) =
        ⟨"s".toList, [], [], false⟩ := by
  have T := claim_c8_summary_invariant ("Alpha\n\nBeta\nCOMMENT:x\nOrphan line".toList)
    ⟨"s".toList, [], [], false⟩ ("Orphan line".toList)
  exact ⟨by rw [T.1]; decide, T.2 rfl (by decide)⟩

/-! ## Claims about the path filter -/

/-- C5 (amended): `shouldExcludePath` returns true iff some pattern
either glob-matches the path, or — provided its glob match does not
error (invalid patterns are skipped entirely, including their `/**`
rule) — ends with `/**` and the path equals the stripped stem or starts
with the stem followed by `/`; the three concrete examples of the claim
hold. -/
theorem claim_c5_glob_exclusion :
    (∀ (filePath : Str) (pats : List Str),
        shouldExcludePath filePath pats = true ↔
          ∃ pat ∈ pats,
            matchGo pat filePath = .ok true ∨
              (matchGo pat filePath ≠ .error () ∧ endsWith pat "/**".toList = true ∧
                (startsWith filePath (trimSuf "/**".toList pat ++ ['/']) = true ∨
                  filePath = trimSuf "/**".toList pat))) ∧
      shouldExcludePath ("vendor/lib.go".toList) ["vendor/**".toList] = true ∧
      shouldExcludePath ("README.md".toList) ["vendor/**".toList] = false ∧
      shouldExcludePath ("a.generated.go".toList) ["*.generated.go".toList] = true := by
  have unfoldCons : ∀ (filePath pat : Str) (rest : List Str),
      shouldExcludePath filePath (pat :: rest) =
        match matchGo pat filePath with
        | .error _ => shouldExcludePath filePath rest
        | .ok matched =>
          if matched then true
          else
            if endsWith pat "/**".toList then
              (if startsWith filePath (trimSuf "/**".toList pat ++ ['/'])
                  || filePath == trimSuf "/**".toList pat then true
               else shouldExcludePath filePath rest)
            else shouldExcludePath filePath rest :=
    fun _ _ _ => rfl
  refine ⟨fun filePath pats => ?_, by decide, by decide, by decide⟩
  induction pats with
  | nil => simp [shouldExcludePath]
  | cons pat rest ih =>
    rw [unfoldCons, List.exists_mem_cons_iff]
    rcases hm : matchGo pat filePath with u | b
    · cases u
      dsimp only
      rw [ih]
      constructor
      · exact fun hx => Or.inr hx
      · rintro (hpat | hx)
        · rcases hpat with hok | ⟨hne, -⟩
          · exact Except.noConfusion hok
          · exact absurd rfl hne
        · exact hx
    · rcases b with _ | _
      · dsimp only
        rw [if_neg Bool.false_ne_true]
        by_cases hs : endsWith pat "/**".toList = true
        · rw [if_pos hs]
          by_cases hp : (startsWith filePath (trimSuf "/**".toList pat ++ ['/'])
              || filePath == trimSuf "/**".toList pat) = true
          · rw [if_pos hp]
            refine iff_of_true rfl (Or.inl (Or.inr ⟨fun hh => Except.noConfusion hh, hs, ?_⟩))
            rcases Bool.or_eq_true_iff.mp hp with h | h
            · exact Or.inl h
            · exact Or.inr (by simpa using h)
          · rw [if_neg hp, ih]
            constructor
            · exact fun hx => Or.inr hx
            · rintro (hpat | hx)
              · rcases hpat with hok | ⟨-, -, hp2⟩
                · exact absurd (Except.ok.inj hok) Bool.false_ne_true
                · rcases hp2 with h | h
                  · exact absurd (Bool.or_eq_true_iff.mpr (Or.inl h)) hp
                  · exact absurd (Bool.or_eq_true_iff.mpr (Or.inr (by simpa using h))) hp
              · exact hx
        · rw [if_neg hs, ih]
          constructor
          · exact fun hx => Or.inr hx
          · rintro (hpat | hx)
            · rcases hpat with hok | ⟨-, hs2, -⟩
              · exact absurd (Except.ok.inj hok) Bool.false_ne_true
              · exact absurd hs2 hs
            · exact hx
      · dsimp only
        rw [if_pos rfl]
        exact iff_of_true rfl (Or.inl (Or.inl rfl))

/-- C5 counterexample: for pattern `[/**` (an invalid glob that ends in
`/**`) and path `[`, the claim's iff-condition holds — the path equals
the pattern's stem — yet the code returns false, because an invalid
pattern is skipped before its `/**` prefix rule is ever consulted. -/
theorem claim_c5_counterexample :
    shouldExcludePath ("[".toList) ["[/**".toList] = false ∧
      shouldExcludeSpec ("[".toList) ["[/**".toList] = true := by
  constructor <;> decide

theorem filterLoop_eq (pats : List Str) :
    ∀ changes : List MRChange,
      filterLoop pats changes =
        (changes.filter (fun c => !shouldExcludePath (effectivePath c) pats),
          (changes.filter (fun c => shouldExcludePath (effectivePath c) pats)).map
            effectivePath) := by
  intro changes
  induction changes with
  | nil => rfl
  | cons c rest ih =>
    simp only [filterLoop]
    by_cases hx : shouldExcludePath (effectivePath c) pats = true
    · rw [if_pos hx, ih, List.filter_cons_of_neg (by simp [hx]),
        List.filter_cons_of_pos (by exact hx), List.map_cons]
    · rw [if_neg hx, ih, List.filter_cons_of_pos (by simp [eq_false_of_ne_true hx]),
        List.filter_cons_of_neg (by exact hx)]

/-- C6 (amended): filtering matches each change against its new path
unless the new path is empty, in which case against its old path (the
deleted-file case in the upstream data model, where a deletion carries
an empty new path); the kept sequence is the order-preserving filter of
the input and the excluded paths are the matched paths of the filtered
changes in order; a nil or empty rule set returns the input unchanged
with an empty exclusion list. -/
theorem claim_c6_filter_changes :
    (∀ changes : List MRChange, filterExcludedChanges changes none = (changes, [])) ∧
      (∀ changes : List MRChange,
          filterExcludedChanges changes (some ⟨[]⟩) = (changes, [])) ∧
      (∀ (changes : List MRChange) (cfg : Option WhyThoConfig),
          filterExcludedChanges changes cfg =
            (changes.filter (fun c => !shouldExcludePath (effectivePath c) (patsOf cfg)),
              (changes.filter
                  (fun c => shouldExcludePath (effectivePath c) (patsOf cfg))).map
                effectivePath)) := by
  refine ⟨fun changes => rfl, fun changes => rfl, fun changes cfg => ?_⟩
  rcases cfg with _ | cfg
  · simp [filterExcludedChanges, patsOf, shouldExcludePath]
  · unfold filterExcludedChanges patsOf
    dsimp only
    by_cases hz : cfg.ExcludePaths = []
    · rw [if_pos hz, hz]
      simp [shouldExcludePath]
    · rw [if_neg hz, filterLoop_eq]

/-- C6 counterexample: a deleted change whose new path is non-empty and
differs from its old path is matched against the NEW path by the code,
while the claim prescribes the old path: with old path `vendor/a.go`,
new path `b.go` and pattern `vendor/**`, the code keeps the change and
excludes nothing, whereas the claim's rule would exclude it. -/
theorem claim_c6_counterexample :
    filterExcludedChanges
        [{ OldPath := "vendor/a.go".toList, NewPath := "b.go".toList, DeletedFile := true }]
        (some ⟨["vendor/**".toList]⟩) =
      ([{ OldPath := "vendor/a.go".toList, NewPath := "b.go".toList,
          DeletedFile := true }], []) ∧
      filterChangesClaim
          [{ OldPath := "vendor/a.go".toList, NewPath := "b.go".toList,
             DeletedFile := true }]
          ⟨["vendor/**".toList]⟩ =
        ([], ["vendor/a.go".toList]) := by
  constructor <;> decide

/-! ## Claims about the WhyTho config lookup -/

theorem filterPMap_eq (p : Str → Bool) (f : Str → Str) :
    ∀ ls : List Str,
      (ls.filter p).map f = ls.filterMap (fun l => if p l then some (f l) else none) := by
  intro ls
  induction ls with
  | nil => rfl
  | cons l ls ih =>
    rw [List.filter_cons, List.filterMap_cons]
    by_cases hl : p l = true
    · rw [if_pos hl, if_pos hl]
      dsimp only
      rw [List.map_cons, ih]
    · rw [if_neg hl, if_neg hl]
      dsimp only
      exact ih

/-- C10: when the change set contains a (first) non-deleted change at
`.whytho/config.yaml`, the config is parsed from that change's diff —
precisely from its added lines, `+` stripped, in order, with context
lines contributing nothing — falling back to the target branch exactly
when that parse fails; with no such change the target branch is used. -/
theorem claim_c10_config_precedence :
    (∀ (yamlParse : Str → Except Str WhyThoConfig)
        (branchResult : Except Str WhyThoConfig)
        (pre post : List MRChange) (c : MRChange),
        (∀ x ∈ pre, ¬(x.NewPath = ".whytho/config.yaml".toList ∧ x.DeletedFile = false)) →
        c.NewPath = ".whytho/config.yaml".toList → c.DeletedFile = false →
        GetWhyThoConfig yamlParse branchResult (pre ++ c :: post) =
          (match yamlParse (yamlContentFromDiff c.Diff) with
           | .ok cfg => .ok cfg
           | .error _ => branchResult)) ∧
      (∀ (yamlParse : Str → Except Str WhyThoConfig)
          (branchResult : Except Str WhyThoConfig) (changes : List MRChange),
          (∀ x ∈ changes,
              ¬(x.NewPath = ".whytho/config.yaml".toList ∧ x.DeletedFile = false)) →
          GetWhyThoConfig yamlParse branchResult changes = branchResult) ∧
      (∀ diff : Str,
          yamlContentFromDiff diff =
            ((splitChar '\n' diff).filterMap addedLineContent).flatten) := by
  have hpredf : ∀ (x : MRChange),
      ¬(x.NewPath = ".whytho/config.yaml".toList ∧ x.DeletedFile = false) →
      (x.NewPath == ".whytho/config.yaml".toList && !x.DeletedFile) = false := by
    intro x hx
    cases hb : (x.NewPath == ".whytho/config.yaml".toList && !x.DeletedFile)
    · rfl
    · exfalso
      rw [Bool.and_eq_true] at hb
      exact hx ⟨by simpa using hb.1, by simpa using hb.2⟩
  refine ⟨fun yamlParse branchResult pre post c hpre hc hd => ?_,
    fun yamlParse branchResult changes hall => ?_, fun diff => ?_⟩
  · have hfind : (pre ++ c :: post).find?
        (fun x => x.NewPath == ".whytho/config.yaml".toList && !x.DeletedFile) = some c := by
      induction pre with
      | nil =>
        rw [List.nil_append, List.find?_cons_of_pos _ (by rw [hc, hd]; simp)]
      | cons p pre ihp =>
        rw [List.cons_append,
          List.find?_cons_of_neg _
            (by rw [hpredf p (hpre p (List.mem_cons_self p pre))]; simp)]
        exact ihp (fun x hx => hpre x (List.mem_cons_of_mem p hx))
    unfold GetWhyThoConfig
    rw [hfind]
    rfl
  · have hfind : changes.find?
        (fun x => x.NewPath == ".whytho/config.yaml".toList && !x.DeletedFile) = none := by
      rw [List.find?_eq_none]
      intro x hx
      rw [hpredf x (hall x hx)]
      simp
    unfold GetWhyThoConfig
    rw [hfind]
  · unfold yamlContentFromDiff addedLineContent
    exact congrArg List.flatten
      (filterPMap_eq (fun line => startsWith line "+".toList && !startsWith line "+++".toList)
        (fun line => dropPre "+".toList line ++ ['\n']) (splitChar '\n' diff))

/-- C10 witness: an amended config is read from the diff's added lines
only — the context line contributes nothing — and takes precedence over
the target-branch config. -/
theorem claim_c10_witness :
    GetWhyThoConfig
        (fun s => if s = "exclude_paths:\n- vendor/**\n".toList then
            Except.ok ⟨["vendor/**".toList]⟩ else Except.error ("bad".toList))
        (Except.ok ⟨[]⟩)
        [{ NewPath := "other.go".toList, Diff := "+x".toList },
          { NewPath := ".whytho/config.yaml".toList,
            Diff := "@@ -1 +1,2 @@\n context\n+exclude_paths:\n+- vendor/**".toList }] =
      Except.ok ⟨["vendor/**".toList]⟩ := by
  have T := claim_c10_config_precedence.1
    (fun s => if s = "exclude_paths:\n- vendor/**\n".toList then
        Except.ok ⟨["vendor/**".toList]⟩ else Except.error ("bad".toList))
    (Except.ok ⟨[]⟩)
    [{ NewPath := "other.go".toList, Diff := "+x".toList }] []
    { NewPath := ".whytho/config.yaml".toList,
      Diff := "@@ -1 +1,2 @@\n context\n+exclude_paths:\n+- vendor/**".toList }
    (by decide) (by decide) (by decide)
  rw [List.singleton_append] at T
  rw [T]
  decide

end WhyTho
